import Mathlib

/-!
Verification of the study-assistant single-page application.

The repository consists of a React UI (`App.tsx`, in two snapshots), a data
model (`types.ts`) and an AI-client module (`services/geminiService.ts`, in
two snapshots).  The definitions below are shallow embeddings of those
source functions:

* browser `localStorage` is modelled as an association list of string keys
  and string values (`StoreMap`); `ClientState` additionally counts the
  network calls issued to the AI API so that "no API call is made" is
  expressible;
* `async` functions that can throw are modelled as `Except String`-valued
  functions, the thrown error being its message string;
* the platform codec `JSON.parse` / `JSON.stringify` is a parameter
  (`parse` / `stringify`): the repository only consumes it;
* JavaScript machine numbers appear here only as small non-negative
  integers (scores, counters, millisecond timestamps), modelled as `Nat`
  resp. `Int`; the one floating-point expression of the program,
  `Math.round((choiceCorrect / choiceTotal) * 100)`, is modelled by an
  exact binary64 round-to-nearest-even model over `Nat` fractions
  (`fpRoundFrac` / `fpTimesNat` / `jsMathRoundVal`), which reproduces the
  double rounding of the division and the multiplication; the counters
  themselves are exact, which is faithful below `2 ^ 53` questions.
-/

deriving instance DecidableEq for Except

/-! ### Data model (`types.ts`) -/

/-- The enumerated `type` field of `Question`: `'choice' | 'material'`. -/
inductive QType where
  | choice
  | material
deriving DecidableEq

/-- `Question` record from `types.ts`. -/
structure Question where
  id : String
  type : QType
  stem : String
  options : Option (List String)
  answer : String
  analysis : String
  material : Option String
  hint : Option String
deriving DecidableEq

/-- `SearchResult` record from `types.ts`. -/
structure SearchResult where
  title : String
  uri : String
deriving DecidableEq

/-- The `{text, links}` record built by `searchGuangzhouExamTrends`. -/
structure TrendsResult where
  text : String
  links : List SearchResult
deriving DecidableEq

/-- `Lesson` record from `types.ts`. -/
structure Lesson where
  id : Nat
  title : String
  period : String
  content : String
  keyConcepts : List String
deriving DecidableEq

/-- `UserProgress` record from `types.ts`.  `quizScores : Record<number, number>`
is modelled as a partial map. -/
structure UserProgress where
  userId : String
  userName : String
  completedLessons : List Nat
  quizScores : Nat → Option Nat
  wrongQuestions : List Question
  lastActive : String

/-! ### Browser storage model -/

/-- `localStorage` contents: later writes shadow earlier ones. -/
abbrev StoreMap := List (String × String)

/-- `localStorage.getItem`, returning `none` for an absent key. -/
def getItem (st : StoreMap) (k : String) : Option String :=
  (st.find? (fun p => p.1 == k)).map (fun p => p.2)

/-- `localStorage.setItem`. -/
def setItem (st : StoreMap) (k v : String) : StoreMap :=
  (k, v) :: st

/-- The client-visible world: the storage plus a count of AI API requests
issued (so that "no network call is made" can be stated). -/
structure ClientState where
  store : StoreMap
  apiCalls : Nat
deriving DecidableEq

/-! ### Rate-limit detection and retry (`services/geminiService.ts`, part_000 lines 22-40) -/

/-- `JavaScript String.prototype.includes`: `charsContain sub l` is true when
`sub` occurs contiguously inside `l`. -/
def charsContain (sub : List Char) : List Char → Bool
  | [] => List.isPrefixOf sub []
  | c :: cs => List.isPrefixOf sub (c :: cs) || charsContain sub cs

/-- `s.includes(sub)` on strings. -/
def jsIncludes (s sub : String) : Bool :=
  charsContain sub.data s.data

/-- `e?.message?.includes('429') || e?.message?.includes('RESOURCE_EXHAUSTED')`
(part_000 line 29). -/
def isQuotaError (msg : String) : Bool :=
  jsIncludes msg "429" || jsIncludes msg "RESOURCE_EXHAUSTED"

/-- Observable behaviour of one `retryWithBackoff` run: the final outcome,
how many times `fn` was invoked, and the waits performed (in ms, in order). -/
structure RetryResult (α : Type) where
  outcome : Except String α
  calls : Nat
  delays : List Nat

/-- The loop of `retryWithBackoff` (part_000 lines 25-38), started at
attempt index `i` with current `delay`.  `fn j` is the outcome of the
`j`-th invocation of the wrapped thunk.  The final `return fn()` after the
loop (line 39) is the `else` branch. -/
def retryGo {α : Type} (fn : Nat → Except String α) (maxRetries : Nat)
    (i delay : Nat) : RetryResult α :=
  if i < maxRetries then
    match fn i with
    | Except.ok v => ⟨Except.ok v, i + 1, []⟩
    | Except.error m =>
      if isQuotaError m = true ∧ i < maxRetries - 1 then
        let r := retryGo fn maxRetries (i + 1) (delay * 2)
        ⟨r.outcome, r.calls, delay :: r.delays⟩
      else ⟨Except.error m, i + 1, []⟩
  else
    ⟨fn i, i + 1, []⟩
termination_by maxRetries - i
decreasing_by omega

/-- `retryWithBackoff` (part_000 lines 23-40): `delay` starts at 2000 ms. -/
def retryWithBackoff {α : Type} (fn : Nat → Except String α)
    (maxRetries : Nat := 2) : RetryResult α :=
  retryGo fn maxRetries 0 2000

theorem retryGo_of_done {α : Type} (fn : Nat → Except String α) (maxRetries i delay : Nat)
    (h : ¬ i < maxRetries) :
    retryGo fn maxRetries i delay = ⟨fn i, i + 1, []⟩ := by
  rw [retryGo]
  simp [h]

theorem retryGo_of_ok {α : Type} (fn : Nat → Except String α) (maxRetries i delay : Nat)
    (v : α) (h : i < maxRetries) (hfi : fn i = Except.ok v) :
    retryGo fn maxRetries i delay = ⟨Except.ok v, i + 1, []⟩ := by
  rw [retryGo]
  simp [h, hfi]

theorem retryGo_of_retry {α : Type} (fn : Nat → Except String α) (maxRetries i delay : Nat)
    (m : String) (h : i < maxRetries) (hfi : fn i = Except.error m)
    (hq : isQuotaError m = true ∧ i < maxRetries - 1) :
    retryGo fn maxRetries i delay =
      ⟨(retryGo fn maxRetries (i + 1) (delay * 2)).outcome,
       (retryGo fn maxRetries (i + 1) (delay * 2)).calls,
       delay :: (retryGo fn maxRetries (i + 1) (delay * 2)).delays⟩ := by
  rw [retryGo]
  simp [h, hfi, hq.1, hq.2]

theorem retryGo_of_throw {α : Type} (fn : Nat → Except String α) (maxRetries i delay : Nat)
    (m : String) (h : i < maxRetries) (hfi : fn i = Except.error m)
    (hq : ¬ (isQuotaError m = true ∧ i < maxRetries - 1)) :
    retryGo fn maxRetries i delay = ⟨Except.error m, i + 1, []⟩ := by
  rw [retryGo]
  simp only [if_pos h, hfi]
  rw [if_neg hq]

theorem retryGo_spec {α : Type} (fn : Nat → Except String α) (maxRetries : Nat) :
    ∀ (n i delay : Nat), maxRetries - i ≤ n →
      i < (retryGo fn maxRetries i delay).calls ∧
      (retryGo fn maxRetries i delay).calls ≤ Nat.max maxRetries (i + 1) ∧
      (∀ j, i ≤ j → j + 1 < (retryGo fn maxRetries i delay).calls →
        ∃ m, fn j = Except.error m ∧ isQuotaError m = true) ∧
      (retryGo fn maxRetries i delay).delays =
        (List.range ((retryGo fn maxRetries i delay).calls - 1 - i)).map
          (fun k => delay * 2 ^ k) ∧
      (∀ m, fn ((retryGo fn maxRetries i delay).calls - 1) = Except.error m →
        (retryGo fn maxRetries i delay).outcome = Except.error m) := by
  intro n
  induction n with
  | zero =>
    intro i delay hn
    have hge : ¬ i < maxRetries := by omega
    have e := retryGo_of_done fn maxRetries i delay hge
    have ec : (retryGo fn maxRetries i delay).calls = i + 1 := by rw [e]
    have ed : (retryGo fn maxRetries i delay).delays = [] := by rw [e]
    have eo : (retryGo fn maxRetries i delay).outcome = fn i := by rw [e]
    refine ⟨by omega, ?_, ?_, ?_, ?_⟩
    · rw [ec]
      exact Nat.le_max_right _ _
    · intro j hij hj
      rw [ec] at hj
      omega
    · rw [ed, ec]
      simp
    · intro m hm
      rw [ec, Nat.add_sub_cancel] at hm
      rw [eo, hm]
  | succ n ih =>
    intro i delay hn
    by_cases hlt : i < maxRetries
    · cases hfi : fn i with
      | ok v =>
        have e := retryGo_of_ok fn maxRetries i delay v hlt hfi
        have ec : (retryGo fn maxRetries i delay).calls = i + 1 := by rw [e]
        have ed : (retryGo fn maxRetries i delay).delays = [] := by rw [e]
        have eo : (retryGo fn maxRetries i delay).outcome = Except.ok v := by rw [e]
        refine ⟨by omega, ?_, ?_, ?_, ?_⟩
        · rw [ec]
          exact Nat.le_max_right _ _
        · intro j hij hj
          rw [ec] at hj
          omega
        · rw [ed, ec]
          simp
        · intro m hm
          rw [ec, Nat.add_sub_cancel, hfi] at hm
          exact absurd hm (by simp)
      | error m =>
        by_cases hq : isQuotaError m = true ∧ i < maxRetries - 1
        · have e := retryGo_of_retry fn maxRetries i delay m hlt hfi hq
          have ec : (retryGo fn maxRetries i delay).calls =
              (retryGo fn maxRetries (i + 1) (delay * 2)).calls := by rw [e]
          have ed : (retryGo fn maxRetries i delay).delays =
              delay :: (retryGo fn maxRetries (i + 1) (delay * 2)).delays := by rw [e]
          have eo : (retryGo fn maxRetries i delay).outcome =
              (retryGo fn maxRetries (i + 1) (delay * 2)).outcome := by rw [e]
          obtain ⟨h1, h2, h3, h4, h5⟩ := ih (i + 1) (delay * 2) (by omega)
          refine ⟨by omega, ?_, ?_, ?_, ?_⟩
          · rw [ec]
            have hb : i + 1 + 1 ≤ maxRetries := by omega
            calc (retryGo fn maxRetries (i + 1) (delay * 2)).calls
                ≤ Nat.max maxRetries (i + 1 + 1) := h2
              _ = maxRetries := Nat.max_eq_left hb
              _ ≤ Nat.max maxRetries (i + 1) := Nat.le_max_left _ _
          · intro j hij hj
            rw [ec] at hj
            rcases Nat.lt_or_ge i j with hij2 | hij2
            · exact h3 j (by omega) hj
            · have hji : j = i := by omega
              subst hji
              exact ⟨m, hfi, hq.1⟩
          · rw [ed, ec, h4]
            have hm1 : (retryGo fn maxRetries (i + 1) (delay * 2)).calls - 1 - i =
                ((retryGo fn maxRetries (i + 1) (delay * 2)).calls - 1 - (i + 1)) + 1 := by
              omega
            rw [hm1, List.range_succ_eq_map, List.map_cons, List.map_map]
            congr 1
            · simp
            · apply List.map_congr_left
              intro a _
              simp only [Function.comp_apply, Nat.pow_succ]
              ring
          · intro m' hm'
            rw [ec] at hm'
            rw [eo]
            exact h5 m' hm'
        · have e := retryGo_of_throw fn maxRetries i delay m hlt hfi hq
          have ec : (retryGo fn maxRetries i delay).calls = i + 1 := by rw [e]
          have ed : (retryGo fn maxRetries i delay).delays = [] := by rw [e]
          have eo : (retryGo fn maxRetries i delay).outcome = Except.error m := by rw [e]
          refine ⟨by omega, ?_, ?_, ?_, ?_⟩
          · rw [ec]
            exact Nat.le_max_right _ _
          · intro j hij hj
            rw [ec] at hj
            omega
          · rw [ed, ec]
            simp
          · intro m' hm'
            rw [ec, Nat.add_sub_cancel, hfi] at hm'
            injection hm' with hmm
            rw [eo, hmm]
    · have e := retryGo_of_done fn maxRetries i delay hlt
      have ec : (retryGo fn maxRetries i delay).calls = i + 1 := by rw [e]
      have ed : (retryGo fn maxRetries i delay).delays = [] := by rw [e]
      have eo : (retryGo fn maxRetries i delay).outcome = fn i := by rw [e]
      refine ⟨by omega, ?_, ?_, ?_, ?_⟩
      · rw [ec]
        exact Nat.le_max_right _ _
      · intro j hij hj
        rw [ec] at hj
        omega
      · rw [ed, ec]
        simp
      · intro m hm
        rw [ec, Nat.add_sub_cancel] at hm
        rw [eo, hm]

/-- C1: for every thunk `fn` and every `maxRetries ≥ 1`, `retryWithBackoff`
invokes `fn` at most `maxRetries` times; every invocation that was followed
by another one failed with a message containing `'429'` or
`'RESOURCE_EXHAUSTED'` (so it retries only on such errors while a retry
remains); the waits are 2000 ms, 4000 ms, ... doubling before each
subsequent retry; and whenever the final invocation throws (a non-rate-limit
error on any attempt, or a rate-limit error on the last permitted attempt),
that error is rethrown as the overall outcome. -/
theorem retryWithBackoff_spec {α : Type} (fn : Nat → Except String α)
    (maxRetries : Nat) (h : 1 ≤ maxRetries) :
    1 ≤ (retryWithBackoff fn maxRetries).calls ∧
    (retryWithBackoff fn maxRetries).calls ≤ maxRetries ∧
    (∀ j, j + 1 < (retryWithBackoff fn maxRetries).calls →
      ∃ m, fn j = Except.error m ∧ isQuotaError m = true) ∧
    (retryWithBackoff fn maxRetries).delays =
      (List.range ((retryWithBackoff fn maxRetries).calls - 1)).map
        (fun k => 2000 * 2 ^ k) ∧
    (∀ m, fn ((retryWithBackoff fn maxRetries).calls - 1) = Except.error m →
      (retryWithBackoff fn maxRetries).outcome = Except.error m) := by
  have hs := retryGo_spec fn maxRetries maxRetries 0 2000 (by omega)
  obtain ⟨h1, h2, h3, h4, h5⟩ := hs
  refine ⟨h1, ?_, fun j hj => h3 j (Nat.zero_le j) hj, by simpa using h4, h5⟩
  have : Nat.max maxRetries (0 + 1) = maxRetries := by
    simp [Nat.max_def]
    omega
  rw [retryWithBackoff]
  omega

/-- A thunk that is rate-limited once and then succeeds. -/
def retryDemoThunk : Nat → Except String Nat :=
  fun i => if i = 0 then Except.error "got HTTP 429 from upstream" else Except.ok 7

theorem retryWithBackoff_spec_witness :
    1 ≤ 2 ∧
    (1 ≤ (retryWithBackoff retryDemoThunk 2).calls ∧
    (retryWithBackoff retryDemoThunk 2).calls ≤ 2 ∧
    (∀ j, j + 1 < (retryWithBackoff retryDemoThunk 2).calls →
      ∃ m, retryDemoThunk j = Except.error m ∧ isQuotaError m = true) ∧
    (retryWithBackoff retryDemoThunk 2).delays =
      (List.range ((retryWithBackoff retryDemoThunk 2).calls - 1)).map
        (fun k => 2000 * 2 ^ k) ∧
    (∀ m, retryDemoThunk ((retryWithBackoff retryDemoThunk 2).calls - 1) = Except.error m →
      (retryWithBackoff retryDemoThunk 2).outcome = Except.error m)) :=
  ⟨by omega, retryWithBackoff_spec retryDemoThunk 2 (by omega)⟩

/-! ### Local-storage cache (`getCachedData` / `setCachedData`,
part_000 lines 13-20 = part_001 lines 6-13; the two snapshots agree) -/

/-- `getCachedData<T>(key)`: reads `localStorage` key `cache_<key>`;
`saved ? JSON.parse(saved) : null`, where an absent key and the (falsy)
empty string both give `null`, and a `JSON.parse` failure is thrown
(`Except.error`).  `parse` stands for the platform `JSON.parse` at type `T`. -/
def getCachedData {α : Type} (parse : String → Except String α)
    (w : ClientState) (key : String) : Except String (Option α) :=
  match getItem w.store ("cache_" ++ key) with
  | some saved => if saved = "" then Except.ok none else (parse saved).map some
  | none => Except.ok none

/-- `setCachedData<T>(key, data)`: writes `JSON.stringify(data)` (the
parameter `stringify`) under `cache_<key>`. -/
def setCachedData {α : Type} (stringify : α → String)
    (w : ClientState) (key : String) (data : α) : ClientState :=
  { w with store := setItem w.store ("cache_" ++ key) (stringify data) }

theorem getItem_setItem (st : StoreMap) (k v k2 : String) :
    getItem (setItem st k v) k2 = if k2 = k then some v else getItem st k2 := by
  by_cases h : k2 = k
  · subst h
    simp [getItem, setItem, List.find?]
  · have hb : (k == k2) = false := by
      simp [beq_iff_eq]
      intro hk
      exact h hk.symm
    simp [getItem, setItem, List.find?, hb, h]

/-- C6: cache round-trip.  For every key `k` and every value `v` that the
platform codec round-trips (`parse (stringify v) = v`) with a non-empty
serialisation (true of `JSON.stringify` on any JSON-serialisable value),
`getCachedData k` after `setCachedData k v` returns `v`; `setCachedData`
touches only the localStorage key `cache_<k>`; `getCachedData` reads only
that key; and it returns `null` when the key is absent. -/
theorem cachedData_roundtrip {α : Type} (stringify : α → String)
    (parse : String → Except String α) (w : ClientState) (k : String) (v : α)
    (hrt : parse (stringify v) = Except.ok v) (hne : stringify v ≠ "") :
    getCachedData parse (setCachedData stringify w k v) k = Except.ok (some v) ∧
    (∀ k2, k2 ≠ "cache_" ++ k →
      getItem (setCachedData stringify w k v).store k2 = getItem w.store k2) ∧
    (∀ w1 w2 : ClientState,
      getItem w1.store ("cache_" ++ k) = getItem w2.store ("cache_" ++ k) →
      getCachedData parse w1 k = getCachedData parse w2 k) ∧
    (getItem w.store ("cache_" ++ k) = none → getCachedData parse w k = Except.ok none) := by
  refine ⟨?_, ?_, ?_, ?_⟩
  · have h1 : getItem (setCachedData stringify w k v).store ("cache_" ++ k)
        = some (stringify v) := by
      simp [setCachedData, getItem_setItem]
    simp [getCachedData, h1, hne, hrt, Except.map]
  · intro k2 hk2
    simp only [setCachedData, getItem_setItem]
    rw [if_neg hk2]
  · intro w1 w2 heq
    simp only [getCachedData, heq]
  · intro habs
    simp only [getCachedData, habs]

/-- A concrete codec for naturals standing in for `JSON`. -/
def natStringify (n : Nat) : String := toString n

/-- Digit-list reader used by `natParseJson`. -/
def charsToNatGo : List Char → Nat → Option Nat
  | [], acc => some acc
  | c :: cs, acc => if c.isDigit then charsToNatGo cs (acc * 10 + (c.toNat - 48)) else none

/-- Inverse of `natStringify`; fails like `JSON.parse` on other inputs. -/
def natParseJson (s : String) : Except String Nat :=
  match s.data with
  | [] => Except.error "SyntaxError"
  | l =>
    match charsToNatGo l 0 with
    | some n => Except.ok n
    | none => Except.error "SyntaxError"

theorem cachedData_roundtrip_witness :
    (natParseJson (natStringify 5) = Except.ok 5 ∧ natStringify 5 ≠ "") ∧
    (getCachedData natParseJson
        (setCachedData natStringify ⟨[], 0⟩ "questions_lesson_1" 5) "questions_lesson_1"
      = Except.ok (some 5) ∧
    (∀ k2, k2 ≠ "cache_" ++ "questions_lesson_1" →
      getItem (setCachedData natStringify ⟨[], 0⟩ "questions_lesson_1" 5).store k2 =
        getItem (⟨[], 0⟩ : ClientState).store k2) ∧
    (∀ w1 w2 : ClientState,
      getItem w1.store ("cache_" ++ "questions_lesson_1") =
        getItem w2.store ("cache_" ++ "questions_lesson_1") →
      getCachedData natParseJson w1 "questions_lesson_1" =
        getCachedData natParseJson w2 "questions_lesson_1") ∧
    (getItem (⟨[], 0⟩ : ClientState).store ("cache_" ++ "questions_lesson_1") = none →
      getCachedData natParseJson (⟨[], 0⟩ : ClientState) "questions_lesson_1"
        = Except.ok none)) :=
  ⟨⟨rfl, by decide⟩,
   cachedData_roundtrip natStringify natParseJson ⟨[], 0⟩ "questions_lesson_1" 5 rfl (by decide)⟩

/-! ### AI-client service (`services/geminiService.ts`, part_001 snapshot).
The part_000 snapshot differs only in wrapping the API call in
`retryWithBackoff` and in not catching generation errors; the caching logic
proved below is identical in both. -/

/-- JavaScript `String.prototype.trim`, modelled on the character list. -/
def jsTrim (s : String) : String :=
  String.mk ((s.data.dropWhile Char.isWhitespace).reverse.dropWhile Char.isWhitespace).reverse

/-- Key-concatenation normalisation for the questions cache. -/
theorem questionsCacheKey (x : String) :
    "cache_" ++ ("questions_lesson_" ++ x) = "cache_questions_lesson_" ++ x := by
  rw [← String.append_assoc]
  congr 1

/-- `generateQuestionsFromContent(lessonId, content, forceNew)` (part_001
lines 15-73).  `api` is the outcome of the `ai.models.generateContent`
request (its `response.text`, or the thrown error); issuing it bumps
`apiCalls`.  The cached read (before the `try`) rethrows parse failures;
inside the `try`, any failure is caught and `[]` is returned. -/
def generateQuestionsFromContent (parseQ : String → Except String (List Question))
    (stringifyQ : List Question → String) (api : Except String String)
    (w : ClientState) (lessonId : Nat) (forceNew : Bool) :
    Except String (List Question) × ClientState :=
  let cacheKey := "questions_lesson_" ++ toString lessonId
  let gen : ClientState → Except String (List Question) × ClientState := fun w0 =>
    let w1 : ClientState := { w0 with apiCalls := w0.apiCalls + 1 }
    match api with
    | Except.error _ => (Except.ok [], w1)
    | Except.ok text =>
      let jsonStr := jsTrim text
      match parseQ (if jsonStr = "" then "[]" else jsonStr) with
      | Except.error _ => (Except.ok [], w1)
      | Except.ok data => (Except.ok data, setCachedData stringifyQ w1 cacheKey data)
  if forceNew = false then
    match getCachedData parseQ w cacheKey with
    | Except.error m => (Except.error m, w)
    | Except.ok (some cached) => (Except.ok cached, w)
    | Except.ok none => gen w
  else gen w

/-- C3: with `forceNew = false` and a (parseable, non-empty) value cached
under `cache_questions_lesson_<lessonId>`, the parsed cached value is
returned, the state is untouched and no AI API call is made; with
`forceNew = true` the cache read is skipped: the API is called, and on a
successful generation the cache entry is overwritten with the
serialisation of the new result before it is returned. -/
theorem generateQuestions_cache_spec
    (parseQ : String → Except String (List Question))
    (stringifyQ : List Question → String) (api : Except String String)
    (w : ClientState) (lessonId : Nat)
    (s : String) (v : List Question) (text : String) (data : List Question)
    (hs : getItem w.store ("cache_questions_lesson_" ++ toString lessonId) = some s)
    (hne : s ≠ "") (hv : parseQ s = Except.ok v)
    (ht : api = Except.ok text)
    (hd : parseQ (if jsTrim text = "" then "[]" else jsTrim text) = Except.ok data) :
    generateQuestionsFromContent parseQ stringifyQ api w lessonId false = (Except.ok v, w) ∧
    (generateQuestionsFromContent parseQ stringifyQ api w lessonId true).1 = Except.ok data ∧
    (generateQuestionsFromContent parseQ stringifyQ api w lessonId true).2.apiCalls
      = w.apiCalls + 1 ∧
    getItem (generateQuestionsFromContent parseQ stringifyQ api w lessonId true).2.store
      ("cache_questions_lesson_" ++ toString lessonId) = some (stringifyQ data) := by
  have hkey := questionsCacheKey (toString lessonId)
  have hget : getCachedData parseQ w ("questions_lesson_" ++ toString lessonId)
      = Except.ok (some v) := by
    simp only [getCachedData, hkey, hs, if_neg hne, hv]
    rfl
  refine ⟨?_, ?_, ?_, ?_⟩
  · simp only [generateQuestionsFromContent, hget]
    simp
  · simp only [generateQuestionsFromContent, ht, hd]
    simp
  · simp only [generateQuestionsFromContent, ht, hd]
    simp [setCachedData]
  · simp only [generateQuestionsFromContent, ht, hd]
    simp only [setCachedData, setItem, hkey]
    simp [getItem]

/-- A minimal stand-in for `JSON.parse` at type `Question[]`: accepts the
literal `[]`, throws a `SyntaxError` on anything else (as `JSON.parse`
does on malformed input). -/
def demoParseQuestions (s : String) : Except String (List Question) :=
  if s = "[]" then Except.ok []
  else Except.error ("SyntaxError: unexpected token in " ++ s)

/-- A minimal stand-in for `JSON.stringify` at type `Question[]`. -/
def demoStringifyQuestions (qs : List Question) : String :=
  if qs = [] then "[]" else "[?]"

/-- A store holding a valid cached question set for lesson 1. -/
def demoQuestionStore : ClientState :=
  ⟨[("cache_questions_lesson_1", "[]")], 0⟩

theorem generateQuestions_cache_spec_witness :
    (getItem demoQuestionStore.store ("cache_questions_lesson_" ++ toString 1) = some "[]" ∧
     "[]" ≠ "" ∧ demoParseQuestions "[]" = Except.ok [] ∧
     (Except.ok "[]" : Except String String) = Except.ok "[]" ∧
     demoParseQuestions (if jsTrim "[]" = "" then "[]" else jsTrim "[]") = Except.ok []) ∧
    (generateQuestionsFromContent demoParseQuestions demoStringifyQuestions
        (Except.ok "[]") demoQuestionStore 1 false = (Except.ok [], demoQuestionStore) ∧
     (generateQuestionsFromContent demoParseQuestions demoStringifyQuestions
        (Except.ok "[]") demoQuestionStore 1 true).1 = Except.ok [] ∧
     (generateQuestionsFromContent demoParseQuestions demoStringifyQuestions
        (Except.ok "[]") demoQuestionStore 1 true).2.apiCalls
        = demoQuestionStore.apiCalls + 1 ∧
     getItem (generateQuestionsFromContent demoParseQuestions demoStringifyQuestions
        (Except.ok "[]") demoQuestionStore 1 true).2.store
        ("cache_questions_lesson_" ++ toString 1) = some (demoStringifyQuestions [])) :=
  ⟨⟨by decide, by decide, by decide, rfl, by decide⟩,
   generateQuestions_cache_spec demoParseQuestions demoStringifyQuestions
     (Except.ok "[]") demoQuestionStore 1 "[]" [] "[]" []
     (by decide) (by decide) (by decide) rfl (by decide)⟩

/-! ### Exam-trends search (`searchGuangzhouExamTrends`, part_001 lines
99-124, the snapshot that maintains `trends_timestamp`; the part_000
variant predates the timestamp logic). -/

/-- The fetch-and-store tail of `searchGuangzhouExamTrends`: issue the
API request; on success cache the `{text, links}` record under
`cache_exam_trends` and store `Date.now().toString()` under
`trends_timestamp` before returning it. -/
def trendsFetch (stringifyT : TrendsResult → String)
    (api : Except String TrendsResult) (now : Int) (w : ClientState) :
    Except String TrendsResult × ClientState :=
  let w1 : ClientState := { w with apiCalls := w.apiCalls + 1 }
  match api with
  | Except.error m => (Except.error m, w1)
  | Except.ok result =>
    let w2 := setCachedData stringifyT w1 "exam_trends" result
    let w3 : ClientState := { w2 with store := setItem w2.store "trends_timestamp" (toString now) }
    (Except.ok result, w3)

/-- The guard `lastUpdate && (Date.now() - parseInt(lastUpdate)) < 3600000`
(part_001 lines 102-103).  `parseIntJs` models the platform `parseInt`
(`none` for `NaN`, whose comparisons are all false); `now` models
`Date.now()`; the empty string is falsy. -/
def trendsStampFresh (parseIntJs : String → Option Int) (now : Int)
    (w : ClientState) : Bool :=
  match getItem w.store "trends_timestamp" with
  | some lastUpdate =>
    if lastUpdate = "" then false
    else
      match parseIntJs lastUpdate with
      | some ts => decide (now - ts < 3600000)
      | none => false
  | none => false

/-- `searchGuangzhouExamTrends()` (part_001 lines 99-124): the cached
record is returned without any API call exactly when `cached` is truthy
and the timestamp guard holds; otherwise the fetch tail runs. -/
def searchGuangzhouExamTrends (parseT : String → Except String TrendsResult)
    (stringifyT : TrendsResult → String) (parseIntJs : String → Option Int)
    (api : Except String TrendsResult) (now : Int) (w : ClientState) :
    Except String TrendsResult × ClientState :=
  match getCachedData parseT w "exam_trends" with
  | Except.error m => (Except.error m, w)
  | Except.ok cachedOpt =>
    match cachedOpt with
    | some cached =>
      if trendsStampFresh parseIntJs now w then (Except.ok cached, w)
      else trendsFetch stringifyT api now w
    | none => trendsFetch stringifyT api now w

/-- Following the words of the claim: a cached entry exists (and is truthy)
under `cache_exam_trends`, and the stored `trends_timestamp` value is less
than 3600000 ms (one hour) before the current time. -/
def trendsCacheFresh (parseIntJs : String → Option Int) (now : Int)
    (w : ClientState) : Prop :=
  (∃ s, getItem w.store "cache_exam_trends" = some s ∧ s ≠ "") ∧
  (∃ s ts, getItem w.store "trends_timestamp" = some s ∧ s ≠ "" ∧
    parseIntJs s = some ts ∧ now - ts < 3600000)

theorem trendsKey : ("cache_" ++ "exam_trends" : String) = "cache_exam_trends" := rfl

theorem trendsStampFresh_iff (parseIntJs : String → Option Int) (now : Int)
    (w : ClientState) :
    trendsStampFresh parseIntJs now w = true ↔
      (∃ s ts, getItem w.store "trends_timestamp" = some s ∧ s ≠ "" ∧
        parseIntJs s = some ts ∧ now - ts < 3600000) := by
  unfold trendsStampFresh
  cases hgt : getItem w.store "trends_timestamp" with
  | none =>
    constructor
    · intro hfalse
      cases hfalse
    · rintro ⟨s, ts, hgi, -, -, -⟩
      cases hgi
  | some lu =>
    by_cases hlu : lu = ""
    · simp only [if_pos hlu]
      constructor
      · intro hfalse
        cases hfalse
      · rintro ⟨s, ts, hgi, hne, -, -⟩
        injection hgi with hsl
        exact (hne (hsl.symm.trans hlu)).elim
    · simp only [if_neg hlu]
      cases hp : parseIntJs lu with
      | none =>
        constructor
        · intro hfalse
          cases hfalse
        · rintro ⟨s, ts, hgi, -, hps, -⟩
          injection hgi with hsl
          rw [← hsl, hp] at hps
          cases hps
      | some ts =>
        simp only [decide_eq_true_iff]
        constructor
        · intro hlt
          exact ⟨lu, ts, rfl, hlu, hp, hlt⟩
        · rintro ⟨s, ts2, hgi, -, hps, hlt⟩
          injection hgi with hsl
          rw [← hsl, hp] at hps
          injection hps with hts
          rw [hts]
          exact hlt

theorem trendsFetch_apiCalls (stringifyT : TrendsResult → String)
    (api : Except String TrendsResult) (now : Int) (w : ClientState) :
    (trendsFetch stringifyT api now w).2.apiCalls = w.apiCalls + 1 := by
  unfold trendsFetch
  cases api <;> simp [setCachedData]

theorem trendsFetch_ok (stringifyT : TrendsResult → String)
    (api : Except String TrendsResult) (now : Int) (w : ClientState)
    (r : TrendsResult) (hr : api = Except.ok r) :
    (trendsFetch stringifyT api now w).1 = Except.ok r ∧
    getItem (trendsFetch stringifyT api now w).2.store "cache_exam_trends"
      = some (stringifyT r) ∧
    getItem (trendsFetch stringifyT api now w).2.store "trends_timestamp"
      = some (toString now) := by
  subst hr
  have e2 : (trendsFetch stringifyT (Except.ok r) now w).2.store
      = setItem (setItem w.store ("cache_" ++ "exam_trends") (stringifyT r))
          "trends_timestamp" (toString now) := rfl
  refine ⟨rfl, ?_, ?_⟩
  · rw [e2, trendsKey, getItem_setItem, if_neg (by decide), getItem_setItem, if_pos rfl]
  · rw [e2, getItem_setItem, if_pos rfl]

/-- C4: provided whatever is stored under `cache_exam_trends` parses (true
of every value the code itself writes there), `searchGuangzhouExamTrends`
makes no API call if and only if a cached entry exists and the stored
`trends_timestamp` is less than 3600000 ms before the current time; in that
case the parsed cached record is returned and the state is unchanged;
otherwise the API is queried and, on success, both the cache entry and a
fresh `trends_timestamp` are written before the result is returned. -/
theorem searchTrends_cache_spec (parseT : String → Except String TrendsResult)
    (stringifyT : TrendsResult → String) (parseIntJs : String → Option Int)
    (api : Except String TrendsResult) (now : Int) (w : ClientState)
    (hparse : ∀ s, getItem w.store "cache_exam_trends" = some s → s ≠ "" →
      ∃ c, parseT s = Except.ok c) :
    ((searchGuangzhouExamTrends parseT stringifyT parseIntJs api now w).2.apiCalls
        = w.apiCalls ↔ trendsCacheFresh parseIntJs now w) ∧
    (∀ s c, trendsCacheFresh parseIntJs now w →
      getItem w.store "cache_exam_trends" = some s → parseT s = Except.ok c →
      searchGuangzhouExamTrends parseT stringifyT parseIntJs api now w
        = (Except.ok c, w)) ∧
    (∀ r, ¬ trendsCacheFresh parseIntJs now w → api = Except.ok r →
      (searchGuangzhouExamTrends parseT stringifyT parseIntJs api now w).1
          = Except.ok r ∧
      getItem (searchGuangzhouExamTrends parseT stringifyT parseIntJs api now w).2.store
          "cache_exam_trends" = some (stringifyT r) ∧
      getItem (searchGuangzhouExamTrends parseT stringifyT parseIntJs api now w).2.store
          "trends_timestamp" = some (toString now) ∧
      (searchGuangzhouExamTrends parseT stringifyT parseIntJs api now w).2.apiCalls
          = w.apiCalls + 1) := by
  have hCalls := trendsFetch_apiCalls stringifyT api now w
  have hSucc : w.apiCalls + 1 ≠ w.apiCalls := Nat.succ_ne_self w.apiCalls
  cases hc : getItem w.store "cache_exam_trends" with
  | none =>
    have hgc : getCachedData parseT w "exam_trends" = Except.ok none := by
      simp only [getCachedData, trendsKey, hc]
    have heq : searchGuangzhouExamTrends parseT stringifyT parseIntJs api now w
        = trendsFetch stringifyT api now w := by
      simp only [searchGuangzhouExamTrends, hgc]
    have hnf : ¬ trendsCacheFresh parseIntJs now w := by
      rintro ⟨⟨s, hgi, -⟩, -⟩
      rw [hc] at hgi
      cases hgi
    refine ⟨?_, ?_, ?_⟩
    · rw [heq, hCalls]
      exact iff_of_false hSucc hnf
    · intro s c hfr hgi hp
      exact absurd hfr hnf
    · intro r hnfr hr
      obtain ⟨h1, h2, h3⟩ := trendsFetch_ok stringifyT api now w r hr
      rw [heq]
      exact ⟨h1, h2, h3, hCalls⟩
  | some s =>
    by_cases hse : s = ""
    · have hgc : getCachedData parseT w "exam_trends" = Except.ok none := by
        simp only [getCachedData, trendsKey, hc, if_pos hse]
      have heq : searchGuangzhouExamTrends parseT stringifyT parseIntJs api now w
          = trendsFetch stringifyT api now w := by
        simp only [searchGuangzhouExamTrends, hgc]
      have hnf : ¬ trendsCacheFresh parseIntJs now w := by
        rintro ⟨⟨s2, hgi, hne2⟩, -⟩
        rw [hc] at hgi
        injection hgi with hss
        rw [← hss, hse] at hne2
        exact hne2 rfl
      refine ⟨?_, ?_, ?_⟩
      · rw [heq, hCalls]
        exact iff_of_false hSucc hnf
      · intro s2 c hfr hgi hp
        exact absurd hfr hnf
      · intro r hnfr hr
        obtain ⟨h1, h2, h3⟩ := trendsFetch_ok stringifyT api now w r hr
        rw [heq]
        exact ⟨h1, h2, h3, hCalls⟩
    · obtain ⟨c, hc2⟩ := hparse s hc hse
      have hgc : getCachedData parseT w "exam_trends" = Except.ok (some c) := by
        simp only [getCachedData, trendsKey, hc, if_neg hse, hc2]
        rfl
      have hsome : searchGuangzhouExamTrends parseT stringifyT parseIntJs api now w
          = if trendsStampFresh parseIntJs now w then (Except.ok c, w)
            else trendsFetch stringifyT api now w := by
        simp only [searchGuangzhouExamTrends, hgc]
      by_cases hb : trendsStampFresh parseIntJs now w = true
      · have heq : searchGuangzhouExamTrends parseT stringifyT parseIntJs api now w
            = (Except.ok c, w) := by
          rw [hsome, if_pos hb]
        have hfr : trendsCacheFresh parseIntJs now w :=
          ⟨⟨s, hc, hse⟩, (trendsStampFresh_iff parseIntJs now w).mp hb⟩
        refine ⟨?_, ?_, ?_⟩
        · rw [heq]
          exact iff_of_true rfl hfr
        · intro s2 c2 hfr2 hgi hp2
          injection hgi with hss
          rw [← hss] at hp2
          rw [hc2] at hp2
          injection hp2 with hcc
          rw [heq, hcc]
        · intro r hnfr hr
          exact absurd hfr hnfr
      · have heq : searchGuangzhouExamTrends parseT stringifyT parseIntJs api now w
            = trendsFetch stringifyT api now w := by
          rw [hsome, if_neg hb]
        have hnf : ¬ trendsCacheFresh parseIntJs now w := by
          rintro ⟨-, hstamp⟩
          exact hb ((trendsStampFresh_iff parseIntJs now w).mpr hstamp)
        refine ⟨?_, ?_, ?_⟩
        · rw [heq, hCalls]
          exact iff_of_false hSucc hnf
        · intro s2 c2 hfr hgi hp
          exact absurd hfr hnf
        · intro r hnfr hr
          obtain ⟨h1, h2, h3⟩ := trendsFetch_ok stringifyT api now w r hr
          rw [heq]
          exact ⟨h1, h2, h3, hCalls⟩

/-- Minimal stand-in for `JSON.parse` at the trends record type. -/
def demoParseTrends (s : String) : Except String TrendsResult :=
  if s = "T" then Except.ok ⟨"ok", []⟩ else Except.error "SyntaxError"

/-- Minimal stand-in for `JSON.stringify` at the trends record type. -/
def demoStringifyTrends (_ : TrendsResult) : String := "T"

/-- Minimal stand-in for the platform `parseInt` (digits only). -/
def demoParseIntJs (s : String) : Option Int :=
  match s.data with
  | [] => none
  | l =>
    match charsToNatGo l 0 with
    | some n => some (Int.ofNat n)
    | none => none

/-- A store with a valid trends cache entry and a fresh timestamp. -/
def demoTrendsStore : ClientState :=
  ⟨[("cache_exam_trends", "T"), ("trends_timestamp", "100")], 0⟩

theorem searchTrends_cache_spec_witness :
    (∀ s, getItem demoTrendsStore.store "cache_exam_trends" = some s → s ≠ "" →
      ∃ c, demoParseTrends s = Except.ok c) ∧
    (((searchGuangzhouExamTrends demoParseTrends demoStringifyTrends demoParseIntJs
        (Except.ok ⟨"fresh", []⟩) 200 demoTrendsStore).2.apiCalls
        = demoTrendsStore.apiCalls ↔ trendsCacheFresh demoParseIntJs 200 demoTrendsStore) ∧
    (∀ s c, trendsCacheFresh demoParseIntJs 200 demoTrendsStore →
      getItem demoTrendsStore.store "cache_exam_trends" = some s →
      demoParseTrends s = Except.ok c →
      searchGuangzhouExamTrends demoParseTrends demoStringifyTrends demoParseIntJs
        (Except.ok ⟨"fresh", []⟩) 200 demoTrendsStore = (Except.ok c, demoTrendsStore)) ∧
    (∀ r, ¬ trendsCacheFresh demoParseIntJs 200 demoTrendsStore →
      (Except.ok ⟨"fresh", []⟩ : Except String TrendsResult) = Except.ok r →
      (searchGuangzhouExamTrends demoParseTrends demoStringifyTrends demoParseIntJs
        (Except.ok ⟨"fresh", []⟩) 200 demoTrendsStore).1 = Except.ok r ∧
      getItem (searchGuangzhouExamTrends demoParseTrends demoStringifyTrends demoParseIntJs
        (Except.ok ⟨"fresh", []⟩) 200 demoTrendsStore).2.store "cache_exam_trends"
        = some (demoStringifyTrends r) ∧
      getItem (searchGuangzhouExamTrends demoParseTrends demoStringifyTrends demoParseIntJs
        (Except.ok ⟨"fresh", []⟩) 200 demoTrendsStore).2.store "trends_timestamp"
        = some (toString (200 : Int)) ∧
      (searchGuangzhouExamTrends demoParseTrends demoStringifyTrends demoParseIntJs
        (Except.ok ⟨"fresh", []⟩) 200 demoTrendsStore).2.apiCalls
        = demoTrendsStore.apiCalls + 1)) := by
  have hp : ∀ s, getItem demoTrendsStore.store "cache_exam_trends" = some s → s ≠ "" →
      ∃ c, demoParseTrends s = Except.ok c := by
    intro s hs hne
    have h2 : some "T" = some s := hs
    injection h2 with h3
    rw [← h3]
    exact ⟨⟨"ok", []⟩, rfl⟩
  exact ⟨hp, searchTrends_cache_spec demoParseTrends demoStringifyTrends demoParseIntJs
    (Except.ok ⟨"fresh", []⟩) 200 demoTrendsStore hp⟩

/-! ### Quiz scoring (`App.tsx`, part_003 lines 113-149; the part_002
snapshot differs only in building the duplicate-id check with
`Array.find` instead of a `Set`, with identical semantics). -/

/-- The body of the `questions.forEach` loop of `calculateScore`
(part_003 lines 118-130), acting on the accumulator
`(choiceCorrect, choiceTotal, currentWrong)`.  `userAnswers` maps a
question id to the recorded answer, `none` when unanswered
(`undefined === q.answer` is false). -/
def scoreStep (userAnswers : String → Option String)
    (acc : Nat × Nat × List Question) (q : Question) : Nat × Nat × List Question :=
  if q.type = QType.choice then
    if userAnswers q.id = some q.answer then (acc.1 + 1, acc.2.1 + 1, acc.2.2)
    else (acc.1, acc.2.1 + 1, acc.2.2 ++ [q])
  else (acc.1, acc.2.1, acc.2.2 ++ [q])

/-- The full `forEach` loop: counts correct and total choice questions and
collects the current wrong list. -/
def scoreLoop (userAnswers : String → Option String) (questions : List Question) :
    Nat × Nat × List Question :=
  questions.foldl (scoreStep userAnswers) (0, 0, [])

/-- Exact rounding-to-nearest of the rational `num / den` with ties away
from zero: `floor(num / den + 1 / 2)`.  This is both the exact value
`round(100 * c / t)` named by the claim, and ECMAScript `Math.round`
applied to an exactly represented non-negative value (the spec's
`Math.round` picks the closest integer, ties toward `+∞`). -/
def mathRound (num den : Nat) : Nat := (2 * num + den) / (2 * den)

/-- Structural `floor (log2 n)` (fuel-based; `natLog2Go n n` suffices
since `log2 n ≤ n`). -/
def natLog2Go : Nat → Nat → Nat
  | 0, _ => 0
  | fuel + 1, n => if 2 ≤ n then natLog2Go fuel (n / 2) + 1 else 0

/-- `floor (log2 n)` for `n ≥ 1`. -/
def natLog2 (n : Nat) : Nat := natLog2Go n n

/-- Round-to-nearest-even integer division `a / b` (`b > 0`): the IEEE
rounding of a scaled significand. -/
def rneDiv (a b : Nat) : Nat :=
  let q := a / b
  let r := a % b
  if 2 * r < b then q
  else if b < 2 * r then q + 1
  else if q % 2 = 0 then q else q + 1

/-- `2 ^ g ≤ num / den`, for an integer exponent `g`. -/
def twoPowLeRat : Int → Nat → Nat → Bool
  | Int.ofNat k, num, den => den * 2 ^ k ≤ num
  | Int.negSucc k, num, den => den ≤ num * 2 ^ (k + 1)

/-- `floor (log2 (num / den))` for a positive fraction. -/
def fpFloorLog2 (num den : Nat) : Int :=
  let g : Int := (natLog2 num : Int) - (natLog2 den : Int)
  if twoPowLeRat g num den then g else g - 1

/-- The fraction `(num / den) * 2 ^ s` as a `Nat` fraction. -/
def scaledNumDen (num den : Nat) : Int → Nat × Nat
  | Int.ofNat k => (num * 2 ^ k, den)
  | Int.negSucc k => (num, den * 2 ^ (k + 1))

/-- The IEEE binary64 value nearest to the non-negative fraction
`num / den` (round-to-nearest, ties-to-even), returned as a dyadic pair
`(m, p)` of value `m * 2 ^ p`: normal numbers get a 53-bit significand at
the fraction's binade, values below `2 ^ (-1022)` degrade gradually to
multiples of `2 ^ (-1074)`.  (Overflow cannot arise: every value fed to
it here lies in `[0, 100]` up to one rounding.) -/
def fpRoundFrac (num den : Nat) : Nat × Int :=
  if num = 0 then (0, 0)
  else
    let e := fpFloorLog2 num den
    let s : Int := if -1022 ≤ e then 52 - e else 1074
    let nd := scaledNumDen num den s
    (rneDiv nd.1 nd.2, -s)

/-- Binary64 multiplication of a dyadic value by an exactly representable
natural constant: the exact product, rounded back to binary64. -/
def fpTimesNat (v : Nat × Int) (k : Nat) : Nat × Int :=
  let nd := scaledNumDen (v.1 * k) 1 v.2
  fpRoundFrac nd.1 nd.2

/-- ECMAScript `Math.round` applied to a non-negative dyadic binary64
value: the closest integer, ties toward `+∞`. -/
def jsMathRoundVal (v : Nat × Int) : Nat :=
  let nd := scaledNumDen v.1 1 v.2
  mathRound nd.1 nd.2

/-- `calculateScore` (part_003 lines 113-149) for a logged-in user:
returns the value passed to `setScore` together with the updated
`UserProgress` passed to `saveUserProgress`.
`Math.round((choiceCorrect / choiceTotal) * 100)` is evaluated in
binary64: the division is rounded to the nearest double
(`fpRoundFrac`), the product with 100 is rounded again (`fpTimesNat`),
and `Math.round` picks the closest integer with ties toward `+∞`
(`jsMathRoundVal`); `user.quizScores[id] || 0` is the stored score with
both a missing entry and a stored 0 giving 0. -/
def calculateScore (user : UserProgress) (selectedLessonId : Nat)
    (questions : List Question) (userAnswers : String → Option String) :
    Nat × UserProgress :=
  let r := scoreLoop userAnswers questions
  let choiceCorrect := r.1
  let choiceTotal := r.2.1
  let currentWrong := r.2.2
  let finalScore := if 0 < choiceTotal then
      jsMathRoundVal (fpTimesNat (fpRoundFrac choiceCorrect choiceTotal) 100)
    else 100
  let currentBest := (user.quizScores selectedLessonId).getD 0
  let existingWrongIds := user.wrongQuestions.map Question.id
  let newlyAddedWrongs := currentWrong.filter (fun q => !(existingWrongIds.contains q.id))
  (finalScore,
   { user with
     quizScores := fun k =>
       if k = selectedLessonId then some (Nat.max currentBest finalScore)
       else user.quizScores k,
     wrongQuestions := user.wrongQuestions ++ newlyAddedWrongs })

/-- `clearWrongQuestion(id)` (part_003 lines 155-161) for a logged-in
user. -/
def clearWrongQuestion (user : UserProgress) (id : String) : UserProgress :=
  { user with wrongQuestions := user.wrongQuestions.filter (fun q => q.id ≠ id) }

theorem scoreLoop_foldl (ans : String → Option String) (qs : List Question) :
    ∀ (c t : Nat) (w : List Question),
      qs.foldl (scoreStep ans) (c, t, w) =
        (c + (qs.filter (fun q => q.type = QType.choice ∧ ans q.id = some q.answer)).length,
         t + (qs.filter (fun q => q.type = QType.choice)).length,
         w ++ qs.filter (fun q => ¬ (q.type = QType.choice ∧ ans q.id = some q.answer))) := by
  induction qs with
  | nil => simp
  | cons q qs ih =>
    intro c t w
    by_cases hc : q.type = QType.choice
    · by_cases ha : ans q.id = some q.answer
      · rw [List.foldl_cons]
        have hstep : scoreStep ans (c, t, w) q = (c + 1, t + 1, w) := by
          simp [scoreStep, hc, ha]
        rw [hstep, ih]
        simp [List.filter_cons, hc, ha]
        omega
      · rw [List.foldl_cons]
        have hstep : scoreStep ans (c, t, w) q = (c, t + 1, w ++ [q]) := by
          simp [scoreStep, hc, ha]
        rw [hstep, ih]
        simp [List.filter_cons, hc, ha]
        omega
    · rw [List.foldl_cons]
      have hstep : scoreStep ans (c, t, w) q = (c, t, w ++ [q]) := by
        simp [scoreStep, hc]
      rw [hstep, ih]
      simp [List.filter_cons, hc]

theorem scoreLoop_eq (ans : String → Option String) (qs : List Question) :
    scoreLoop ans qs =
      ((qs.filter (fun q => q.type = QType.choice ∧ ans q.id = some q.answer)).length,
       (qs.filter (fun q => q.type = QType.choice)).length,
       qs.filter (fun q => ¬ (q.type = QType.choice ∧ ans q.id = some q.answer))) := by
  have h := scoreLoop_foldl ans qs 0 0 []
  simpa [scoreLoop] using h

/-- A choice quiz question with id `q<i>` whose correct answer is `A`. -/
def cexQuestion (i : Nat) : Question :=
  ⟨"q" ++ toString i, QType.choice, "stem", some ["optA", "optB"], "A", "analysis", none, none⟩

/-- A quiz of 40 choice questions `q0 .. q39`. -/
def cexQuiz : List Question := (List.range 40).map cexQuestion

/-- Answers `A` (correct) for `q0 .. q22` — 23 correct — and `B` beyond. -/
def cexAnswers : String → Option String :=
  fun id =>
    if ((List.range 23).map (fun i => "q" ++ toString i)).contains id then some "A"
    else some "B"

/-- A fresh logged-in user submitting the counterexample quiz. -/
def cexUser : UserProgress :=
  ⟨"1700000000001", "Student", [], fun _ => none, [], "2024-01-01"⟩

/-- C2 counterexample: for a quiz of `t = 40` choice questions with
`c = 23` answered correctly, the program evaluates
`Math.round((23 / 40) * 100)` in binary64 — `23 / 40` rounds down to
`0.57499999999999995…`, the product to `57.49999999999999289…` — and
scores 57, while the claimed `Math.round(100 * 23 / 40)` of the exact
value `57.5` is 58. -/
theorem calculateScore_float_cex :
    (cexQuiz.filter (fun q => q.type = QType.choice)).length = 40 ∧
    (cexQuiz.filter (fun q => q.type = QType.choice ∧ cexAnswers q.id = some q.answer)).length
      = 23 ∧
    (calculateScore cexUser 1 cexQuiz cexAnswers).1 = 57 ∧
    mathRound (100 * 23) 40 = 58 := by
  refine ⟨by decide, by decide, by decide, by decide⟩

/-- C2 (amended): on submission the score is `Math.round` of the binary64
evaluation of `(c / t) * 100` — which can differ from the exact
`Math.round(100 * c / t)`, e.g. 57 instead of 58 at `c = 23, t = 40` —
where `t` counts the choice questions of the current quiz and `c` those
whose recorded answer equals `q.answer` exactly; with no choice questions
the score is 100; and the current wrong list collects exactly the
non-choice questions and the choice questions answered incorrectly or not
at all. -/
theorem calculateScore_binary64_spec (user : UserProgress) (selectedLessonId : Nat)
    (qs : List Question) (ans : String → Option String) :
    (calculateScore user selectedLessonId qs ans).1 =
      (if (qs.filter (fun q => q.type = QType.choice)).length = 0 then 100
       else jsMathRoundVal (fpTimesNat (fpRoundFrac
         ((qs.filter (fun q => q.type = QType.choice ∧ ans q.id = some q.answer)).length)
         ((qs.filter (fun q => q.type = QType.choice)).length)) 100)) ∧
    (scoreLoop ans qs).2.2 =
      qs.filter (fun q => ¬ (q.type = QType.choice ∧ ans q.id = some q.answer)) := by
  have h := scoreLoop_eq ans qs
  constructor
  · simp only [calculateScore, h]
    by_cases ht : (qs.filter (fun q => q.type = QType.choice)).length = 0
    · simp [ht]
    · have hpos : 0 < (qs.filter (fun q => q.type = QType.choice)).length := by omega
      simp only [if_neg ht, if_pos hpos]
  · rw [h]

/-- C9: `calculateScore` writes `max(previously stored score, newly
computed score)` into `quizScores[lessonId]` (a missing entry counting
as 0), leaves every other lesson entry unchanged, and therefore never
lowers any lesson's recorded score. -/
theorem quizScores_monotone (user : UserProgress) (selectedLessonId : Nat)
    (qs : List Question) (ans : String → Option String) :
    (calculateScore user selectedLessonId qs ans).2.quizScores selectedLessonId
      = some (Nat.max ((user.quizScores selectedLessonId).getD 0)
          (calculateScore user selectedLessonId qs ans).1) ∧
    (∀ k, (calculateScore user selectedLessonId qs ans).2.quizScores k
      = if k = selectedLessonId then
          some (Nat.max ((user.quizScores selectedLessonId).getD 0)
            (calculateScore user selectedLessonId qs ans).1)
        else user.quizScores k) ∧
    (∀ k, (user.quizScores k).getD 0
      ≤ ((calculateScore user selectedLessonId qs ans).2.quizScores k).getD 0) := by
  refine ⟨?_, ?_, ?_⟩
  · simp [calculateScore]
  · intro k
    by_cases hk : k = selectedLessonId
    · subst hk
      simp [calculateScore]
    · simp [calculateScore, hk]
  · intro k
    by_cases hk : k = selectedLessonId
    · subst hk
      have he : (calculateScore user k qs ans).2.quizScores k
          = some (Nat.max ((user.quizScores k).getD 0)
              (calculateScore user k qs ans).1) := by
        simp [calculateScore]
      rw [he, Option.getD_some]
      exact Nat.le_max_left _ _
    · simp [calculateScore, hk]

/-- C8: if the quiz questions have pairwise-distinct ids and the stored
wrong list has pairwise-distinct ids, the wrong list updated by
`calculateScore` still has pairwise-distinct ids (an id already present is
not added again); and `clearWrongQuestion id` removes exactly the entries
whose id equals `id`. -/
theorem wrongQuestions_nodup_spec (user : UserProgress) (selectedLessonId : Nat)
    (qs : List Question) (ans : String → Option String)
    (h1 : (qs.map Question.id).Nodup)
    (h2 : (user.wrongQuestions.map Question.id).Nodup) :
    (((calculateScore user selectedLessonId qs ans).2.wrongQuestions).map Question.id).Nodup ∧
    (∀ q id, q ∈ (clearWrongQuestion user id).wrongQuestions ↔
      q ∈ user.wrongQuestions ∧ q.id ≠ id) := by
  constructor
  · have hwrong : (calculateScore user selectedLessonId qs ans).2.wrongQuestions
        = user.wrongQuestions ++
          ((scoreLoop ans qs).2.2.filter
            (fun q => !((user.wrongQuestions.map Question.id).contains q.id))) := by
      simp [calculateScore]
    rw [hwrong, List.map_append]
    have hmid : ((scoreLoop ans qs).2.2).Sublist qs := by
      rw [scoreLoop_eq]
      exact List.filter_sublist _
    have hsub : (((scoreLoop ans qs).2.2).filter
        (fun q => !((user.wrongQuestions.map Question.id).contains q.id))).Sublist qs :=
      (List.filter_sublist _).trans hmid
    have hnew : ((((scoreLoop ans qs).2.2).filter
        (fun q => !((user.wrongQuestions.map Question.id).contains q.id))).map
          Question.id).Nodup :=
      List.Nodup.sublist (hsub.map Question.id) h1
    refine List.Nodup.append h2 hnew ?_
    intro a ha hb
    obtain ⟨q, hq, hqa⟩ := List.mem_map.mp hb
    have hfq := (List.mem_filter.mp hq).2
    rw [Bool.not_eq_true'] at hfq
    have hmem : q.id ∈ user.wrongQuestions.map Question.id := by
      rw [hqa]
      exact ha
    have helem : List.elem q.id (user.wrongQuestions.map Question.id) = true :=
      List.elem_iff.mpr hmem
    rw [show (user.wrongQuestions.map Question.id).contains q.id
        = List.elem q.id (user.wrongQuestions.map Question.id) from rfl] at hfq
    rw [helem] at hfq
    cases hfq
  · intro q id
    simp [clearWrongQuestion, List.mem_filter]

/-- A choice question used in concrete runs. -/
def demoQ1 : Question :=
  ⟨"q1", QType.choice, "stem1", some ["optA", "optB"], "A", "analysis1", none, none⟩

/-- A material question used in concrete runs. -/
def demoQ2 : Question :=
  ⟨"q2", QType.material, "stem2", none, "essay", "analysis2", some "source text", some "hint"⟩

/-- A logged-in user who already collected `demoQ2` as a wrong question. -/
def demoUser : UserProgress :=
  ⟨"1700000000000", "Student", [], fun _ => none, [demoQ2], "2024-01-01"⟩

/-- Recorded quiz answers: `q1` answered incorrectly, `q2` unanswered. -/
def demoAnswers : String → Option String :=
  fun id => if id = "q1" then some "B" else none

theorem wrongQuestions_nodup_spec_witness :
    ((([demoQ1, demoQ2].map Question.id).Nodup ∧
      (demoUser.wrongQuestions.map Question.id).Nodup) ∧
    ((((calculateScore demoUser 1 [demoQ1, demoQ2] demoAnswers).2.wrongQuestions).map
        Question.id).Nodup ∧
    (∀ q id, q ∈ (clearWrongQuestion demoUser id).wrongQuestions ↔
      q ∈ demoUser.wrongQuestions ∧ q.id ≠ id))) :=
  ⟨⟨by decide, by decide⟩,
   wrongQuestions_nodup_spec demoUser 1 [demoQ1, demoQ2] demoAnswers (by decide) (by decide)⟩

/-! ### Lesson completion (`handleReview`, part_003 lines 79-85 =
part_002 lines 106-111): the progress update at the end of the handler. -/

/-- The `completedLessons` update of `handleReview(lesson)`: append
`lesson.id` only when it is not already present. -/
def handleReviewProgress (user : UserProgress) (lesson : Lesson) : UserProgress :=
  if user.completedLessons.contains lesson.id then user
  else { user with completedLessons := user.completedLessons ++ [lesson.id] }

theorem handleReviewProgress_step (user : UserProgress) (lesson : Lesson)
    (h : user.completedLessons.Nodup) :
    (handleReviewProgress user lesson).completedLessons.Nodup ∧
    user.completedLessons.Sublist (handleReviewProgress user lesson).completedLessons := by
  unfold handleReviewProgress
  by_cases hc : user.completedLessons.contains lesson.id
  · rw [if_pos hc]
    exact ⟨h, List.Sublist.refl _⟩
  · rw [if_neg hc]
    refine ⟨?_, List.sublist_append_left _ _⟩
    refine List.Nodup.append h (List.nodup_singleton _) ?_
    intro a ha hb
    rw [List.mem_singleton] at hb
    subst hb
    exact hc (List.elem_iff.mpr ha)

/-- C10: starting from a duplicate-free `completedLessons`, any sequence
of `handleReview` calls keeps the list duplicate-free and only extends it
(every prior element is preserved in place); and neither `calculateScore`
nor `clearWrongQuestion` touches `completedLessons` (only logout deletes
the whole user record). -/
theorem completedLessons_invariant (user : UserProgress) (lessons : List Lesson)
    (h : user.completedLessons.Nodup) :
    (lessons.foldl handleReviewProgress user).completedLessons.Nodup ∧
    user.completedLessons.Sublist
      (lessons.foldl handleReviewProgress user).completedLessons ∧
    (∀ u2 id2 qs2 ans2,
      (calculateScore u2 id2 qs2 ans2).2.completedLessons = u2.completedLessons) ∧
    (∀ u3 id3, (clearWrongQuestion u3 id3).completedLessons = u3.completedLessons) := by
  have hmain : ∀ (ls : List Lesson) (u : UserProgress), u.completedLessons.Nodup →
      (ls.foldl handleReviewProgress u).completedLessons.Nodup ∧
      u.completedLessons.Sublist (ls.foldl handleReviewProgress u).completedLessons := by
    intro ls
    induction ls with
    | nil =>
      intro u hu
      exact ⟨hu, List.Sublist.refl _⟩
    | cons l ls ih =>
      intro u hu
      obtain ⟨hstep, hsub⟩ := handleReviewProgress_step u l hu
      obtain ⟨hn, hs⟩ := ih (handleReviewProgress u l) hstep
      exact ⟨hn, hsub.trans hs⟩
  obtain ⟨hn, hs⟩ := hmain lessons user h
  refine ⟨hn, hs, ?_, ?_⟩
  · intro u2 id2 qs2 ans2
    simp [calculateScore]
  · intro u3 id3
    simp [clearWrongQuestion]

/-- A concrete lesson list: the same lesson reviewed twice, then another. -/
def demoLessonA : Lesson := ⟨1, "Unit 1", "ancient", "content 1", ["idea1"]⟩

/-- A second concrete lesson. -/
def demoLessonB : Lesson := ⟨2, "Unit 2", "modern", "content 2", ["idea2"]⟩

theorem completedLessons_invariant_witness :
    (demoUser.completedLessons.Nodup) ∧
    (([demoLessonA, demoLessonA, demoLessonB].foldl handleReviewProgress
        demoUser).completedLessons.Nodup ∧
    demoUser.completedLessons.Sublist
      (([demoLessonA, demoLessonA, demoLessonB].foldl handleReviewProgress
        demoUser).completedLessons) ∧
    (∀ u2 id2 qs2 ans2,
      (calculateScore u2 id2 qs2 ans2).2.completedLessons = u2.completedLessons) ∧
    (∀ u3 id3, (clearWrongQuestion u3 id3).completedLessons = u3.completedLessons)) :=
  ⟨by decide,
   completedLessons_invariant demoUser [demoLessonA, demoLessonA, demoLessonB] (by decide)⟩

/-! ### Practice handler (`handleStartPractice`, part_003 lines 87-111;
part_002 lines 114-144 reads the same cache key the same way before its
`try` block). -/

/-- `handleStartPractice(lesson, forceNew)` for a selected lesson:
`Except.error` is an exception escaping the handler (uncaught);
`Except.ok (qs?, w)` is normal completion, `qs?` being the value passed to
`setQuestions` (`none` when generation failed and was caught).  Note that
the `JSON.parse(cachedQs)` of the cached questions (line 97) happens
before the `try` block, while the generation call `gen` runs inside it
with a catch-all handler. -/
def handleStartPractice (parse : String → Except String (List Question))
    (gen : ClientState → Except String (List Question) × ClientState)
    (w : ClientState) (lessonId : Nat) (forceNew : Bool) :
    Except String (Option (List Question) × ClientState) :=
  let runGen : ClientState → Except String (Option (List Question) × ClientState) :=
    fun w0 =>
      match gen w0 with
      | (Except.ok qs, w1) => Except.ok (some qs, w1)
      | (Except.error _, w1) => Except.ok (none, w1)
  if forceNew then runGen w
  else
    match getItem w.store ("cache_questions_lesson_" ++ toString lessonId) with
    | some cachedQs =>
      if cachedQs = "" then runGen w
      else
        match parse cachedQs with
        | Except.ok qs => Except.ok (some qs, w)
        | Except.error m => Except.error m
    | none => runGen w

/-- A store whose cached questions entry for lesson 1 is malformed JSON. -/
def demoBadStore : ClientState :=
  ⟨[("cache_questions_lesson_1", "oops")], 0⟩

/-- A generation call that succeeds with an empty question list. -/
def demoGen : ClientState → Except String (List Question) × ClientState :=
  fun w => (Except.ok [], w)

/-- C5 counterexample: with a malformed value under
`cache_questions_lesson_1`, `handleStartPractice` rethrows the
`JSON.parse` failure on the cached data out of the handler (the parse at
part_003 line 97 / part_002 line 125 runs before the `try` block), so this
error is neither surfaced as the dismissible banner nor silently
swallowed: it propagates uncaught past the UI handler. -/
theorem handleStartPractice_uncaught_parse :
    handleStartPractice demoParseQuestions demoGen demoBadStore 1 false
      = Except.error "SyntaxError: unexpected token in oops" := rfl

/-- C5 (amended): errors raised by the AI-client calls inside the
handlers' `try` blocks never escape — `handleStartPractice` completes
normally for every generation outcome provided the cached questions entry
(read before the `try`) is absent, empty or parseable — and
`generateQuestionsFromContent` swallows API failures, returning `[]`;
but a `JSON.parse` failure on a cached entry read directly by a handler
propagates uncaught (see the counterexample). -/
theorem handlers_swallow_spec (parse : String → Except String (List Question))
    (gen : ClientState → Except String (List Question) × ClientState)
    (w : ClientState) (lessonId : Nat) (forceNew : Bool)
    (hcache : ∀ s, getItem w.store ("cache_questions_lesson_" ++ toString lessonId)
      = some s → s ≠ "" → ∃ qs, parse s = Except.ok qs) :
    (∃ out, handleStartPractice parse gen w lessonId forceNew = Except.ok out) ∧
    (∀ stringifyQ m w2 id2,
      (generateQuestionsFromContent parse stringifyQ (Except.error m) w2 id2 true).1
        = Except.ok []) := by
  have hrg : ∀ w0 : ClientState, ∃ out,
      (match gen w0 with
        | (Except.ok qs, w1) =>
          (Except.ok (some qs, w1) : Except String (Option (List Question) × ClientState))
        | (Except.error _, w1) => Except.ok (none, w1)) = Except.ok out := by
    intro w0
    cases hgen : gen w0 with
    | mk o w1 =>
      cases o with
      | ok qs => exact ⟨(some qs, w1), rfl⟩
      | error m => exact ⟨(none, w1), rfl⟩
  constructor
  · cases forceNew with
    | true =>
      obtain ⟨out, hout⟩ := hrg w
      exact ⟨out, hout⟩
    | false =>
      cases hgi : getItem w.store ("cache_questions_lesson_" ++ toString lessonId) with
      | none =>
        obtain ⟨out, hout⟩ := hrg w
        refine ⟨out, ?_⟩
        unfold handleStartPractice
        rw [hgi]
        exact hout
      | some cachedQs =>
        by_cases hce : cachedQs = ""
        · subst hce
          obtain ⟨out, hout⟩ := hrg w
          refine ⟨out, ?_⟩
          unfold handleStartPractice
          rw [hgi]
          exact hout
        · obtain ⟨qs, hqs⟩ := hcache cachedQs hgi hce
          refine ⟨(some qs, w), ?_⟩
          simp [handleStartPractice, hgi, hce, hqs]
  · intro stringifyQ m w2 id2
    simp [generateQuestionsFromContent]

theorem handlers_swallow_spec_witness :
    (∀ s, getItem demoQuestionStore.store ("cache_questions_lesson_" ++ toString 1)
      = some s → s ≠ "" → ∃ qs, demoParseQuestions s = Except.ok qs) ∧
    ((∃ out, handleStartPractice demoParseQuestions demoGen demoQuestionStore 1 false
        = Except.ok out) ∧
    (∀ stringifyQ m w2 id2,
      (generateQuestionsFromContent demoParseQuestions stringifyQ (Except.error m) w2 id2
        true).1 = Except.ok [])) := by
  have hp : ∀ s, getItem demoQuestionStore.store ("cache_questions_lesson_" ++ toString 1)
      = some s → s ≠ "" → ∃ qs, demoParseQuestions s = Except.ok qs := by
    intro s hs hne
    have h2 : some "[]" = some s := hs
    injection h2 with h3
    rw [← h3]
    exact ⟨[], rfl⟩
  exact ⟨hp, handlers_swallow_spec demoParseQuestions demoGen demoQuestionStore 1 false hp⟩

/-! ### Background prefetch (`prefetchLessonData`, part_003 lines 52-57).
The handler fires `generateQuestionsFromContent(...)` and
`generateStudyMindmap(...)` without awaiting either: each async call runs
synchronously up to its network request (issued when the corresponding
cache entry is missing) and suspends there, so both requests are started
before either completes.  A trace of request starts and completions makes
"calls in flight" expressible. -/

/-- A network event: a request starting or completing. -/
inductive NetEvent where
  | start (tag : String)
  | finish (tag : String)
deriving DecidableEq

/-- Running count and running maximum of requests in flight along a trace. -/
def inFlightSteps (t : List NetEvent) : Nat × Nat :=
  t.foldl
    (fun acc e =>
      match e with
      | NetEvent.start _ => (acc.1 + 1, Nat.max acc.2 (acc.1 + 1))
      | NetEvent.finish _ => (acc.1 - 1, acc.2))
    (0, 0)

/-- The largest number of requests simultaneously in flight. -/
def maxInFlight (t : List NetEvent) : Nat := (inFlightSteps t).2

/-- Event trace of one `prefetchLessonData(lesson)` call together with the
updated `prefetchQueue` (the `useRef` set of already-prefetched lesson
ids).  `questionsCached` / `mindmapCached` say whether
`cache_questions_lesson_<id>` / `cache_mindmap_lesson_<id>` hold values, in
which case the corresponding service call returns from cache without a
network request.  Both requests are started (in source order) before
either completes, since neither promise is awaited by the handler. -/
def prefetchTrace (queue : List Nat) (lesson : Lesson)
    (questionsCached mindmapCached : Bool) : List NetEvent × List Nat :=
  if queue.contains lesson.id then ([], queue)
  else
    ((if questionsCached then [] else [NetEvent.start "questions"]) ++
     (if mindmapCached then [] else [NetEvent.start "mindmap"]) ++
     (if questionsCached then [] else [NetEvent.finish "questions"]) ++
     (if mindmapCached then [] else [NetEvent.finish "mindmap"]),
     lesson.id :: queue)

/-- C7 counterexample: hovering a lesson whose questions and mindmap are
both uncached starts the second AI request while the first is still
pending — two network calls in flight from a single user-triggered
action, refuting "at most one network call in flight at any time". -/
theorem prefetch_two_in_flight :
    maxInFlight (prefetchTrace [] demoLessonA false false).1 = 2 ∧
    1 < maxInFlight (prefetchTrace [] demoLessonA false false).1 := by
  constructor
  · decide
  · decide

/-- C7 (amended): a single user-triggered action keeps at most two network
calls in flight: `prefetchLessonData` starts the question-generation and
mindmap requests concurrently without awaiting (two in flight exactly when
both caches miss), and a lesson already in the prefetch queue is never
prefetched again (an immediately repeated prefetch produces no events). -/
theorem prefetch_inflight_bound (queue : List Nat) (lesson : Lesson)
    (qc mc qc2 mc2 : Bool) :
    maxInFlight (prefetchTrace queue lesson qc mc).1 ≤ 2 ∧
    (prefetchTrace (prefetchTrace queue lesson qc mc).2 lesson qc2 mc2).1 = [] := by
  constructor
  · by_cases hq : lesson.id ∈ queue
    · simp [prefetchTrace, hq, maxInFlight, inFlightSteps]
    · cases qc <;> cases mc <;>
        simp [prefetchTrace, hq, maxInFlight, inFlightSteps]
  · by_cases hq : lesson.id ∈ queue
    · simp [prefetchTrace, hq]
    · simp [prefetchTrace, hq]
